import Mathlib

/-!
Verification development for the Mini Compiler / Interpreter
(`src/mini_compiler.py`): a lexer, a recursive-descent parser and a
tree-walking evaluator for a small imperative expression language.

The embedding is a direct translation of the Python source:
* Python numbers are modelled exactly: `int` as `Int`, `float` as an
  unnormalized integer fraction `PyFloat` (numerator/denominator).  All
  float operations the verified programs exercise (literals with a decimal
  point, true division, integer-valued powers, comparisons, the
  `is_integer` display test) are exact at this rational level, so the
  model agrees with IEEE evaluation on every input considered here.
* Recursive procedures (the tokenizer loop, the recursive-descent parser
  and the evaluator) are translated as fuel-indexed structural recursions;
  `Err.outOfFuel` is the embedding's artificial out-of-fuel marker and is
  distinct from every error the Python program can raise.  The relations
  `EvalsTo` / `RunsTo` close over the fuel: they hold exactly when some
  (equivalently, by monotonicity, every sufficiently large) fuel makes the
  computation converge to the stated outcome.
* Exceptions are modelled by the `Err` sum;  mutation of the interpreter
  state (environment and output log) is explicit state passing, and a
  failing evaluation returns the state reached at the point of failure,
  exactly as a raised Python exception leaves the `Interpreter` object.
-/

set_option maxRecDepth 8000
set_option maxHeartbeats 2000000

namespace MiniCompiler

/-! ## Values: Python ints and floats -/

/-- A Python float, modelled as an exact (unnormalized) integer fraction
`num / den`.  Every float the interpreter builds has a nonzero
denominator. -/
structure PyFloat where
  num : Int
  den : Int
deriving DecidableEq, Repr

/-- A runtime number: `int` or `float`, Python's two numeric types here. -/
inductive Value
| vint (n : Int)
| vfloat (fl : PyFloat)
deriving DecidableEq, Repr

/-- Numerator of a value viewed as a fraction. -/
def Value.fnum : Value → Int
| .vint n => n
| .vfloat fl => fl.num

/-- Denominator of a value viewed as a fraction (`1` for ints). -/
def Value.fden : Value → Int
| .vint _ => 1
| .vfloat fl => fl.den

/-- Python truthiness of an evaluation result: `None` and numeric zero are
falsy, every other number is truthy. -/
def truthy : Option Value → Bool
| none => false
| some v => v.fnum != 0

/-- Numeric equality (`==`) on values: cross-multiplied fraction equality,
matching Python's exact int/float comparison. -/
def valEq (a b : Value) : Bool :=
  a.fnum * b.fden == b.fnum * a.fden

/-- Numeric strict order (`<`) on values via cross multiplication, with
the sign of the product of denominators taken into account. -/
def valLt (a b : Value) : Bool :=
  if 0 < a.fden * b.fden then decide (a.fnum * b.fden < b.fnum * a.fden)
  else decide (b.fnum * a.fden < a.fnum * b.fden)

/-- Numeric order (`<=`) on values, analogous to `valLt`. -/
def valLe (a b : Value) : Bool :=
  if 0 < a.fden * b.fden then decide (a.fnum * b.fden ≤ b.fnum * a.fden)
  else decide (b.fnum * a.fden ≤ a.fnum * b.fden)

/-- Python `+` on numbers: int + int stays int, otherwise float. -/
def Value.add : Value → Value → Value
| .vint a, .vint b => .vint (a + b)
| x, y => .vfloat ⟨x.fnum * y.fden + y.fnum * x.fden, x.fden * y.fden⟩

/-- Python `-` on numbers. -/
def Value.sub : Value → Value → Value
| .vint a, .vint b => .vint (a - b)
| x, y => .vfloat ⟨x.fnum * y.fden - y.fnum * x.fden, x.fden * y.fden⟩

/-- Python `*` on numbers. -/
def Value.mul : Value → Value → Value
| .vint a, .vint b => .vint (a * b)
| x, y => .vfloat ⟨x.fnum * y.fnum, x.fden * y.fden⟩

/-- Python `/` (true division): always a float.  The zero test on the
right operand is performed by the caller, as in the source. -/
def Value.div (x y : Value) : Value :=
  .vfloat ⟨x.fnum * y.fden, x.fden * y.fnum⟩

/-- Unary negation. -/
def Value.neg : Value → Value
| .vint n => .vint (-n)
| .vfloat fl => .vfloat ⟨-fl.num, fl.den⟩

/-- Errors of the pipeline.  `outOfFuel` is the embedding's fuel marker;
the remaining constructors model the Python exception classes raised by
the source (`SyntaxError` for lexer and parser, `NameError`,
`ZeroDivisionError`, `RuntimeError`, and the `TypeError` / `KeyError` /
`IndexError` cases that are unreachable from lexer-produced input). -/
inductive Err
| outOfFuel
| synError (msg : String)
| nameError (msg : String)
| zeroDivisionError (msg : String)
| runtimeError (msg : String)
| typeError (msg : String)
| keyError (msg : String)
| indexError
deriving DecidableEq, Repr

/-- The exception classes caught by `run`:
`except (SyntaxError, NameError, ZeroDivisionError, RuntimeError)`. -/
def Err.isCaught : Err → Bool
| .synError _ => true
| .nameError _ => true
| .zeroDivisionError _ => true
| .runtimeError _ => true
| _ => false

/-- Python `%` on numbers (sign follows the divisor; native
`ZeroDivisionError` on a zero right operand, as raised by the `%`
operator itself — the source does not guard it). -/
def Value.mod : Value → Value → Except Err Value
| .vint a, .vint b =>
    if b = 0 then .error (.zeroDivisionError "integer modulo by zero")
    else .ok (.vint (Int.fmod a b))
| x, y =>
    if y.fnum = 0 then .error (.zeroDivisionError "float modulo")
    else
      let k := Int.fdiv (x.fnum * y.fden) (x.fden * y.fnum)
      .ok (.vfloat ⟨x.fnum * y.fden - y.fnum * k * x.fden, x.fden * y.fden⟩)

/-- Python `**` on numbers: int ** nonnegative int is an int, a negative
integer exponent gives a float (with the native `ZeroDivisionError` on a
zero base).  A fractional exponent is real-valued in Python and lies
outside this exact rational embedding; no verified program and no claim
exercises that branch. -/
def Value.pow : Value → Value → Except Err Value
| .vint a, .vint b =>
    if 0 ≤ b then .ok (.vint (a ^ b.toNat))
    else if a = 0 then
      .error (.zeroDivisionError "0.0 cannot be raised to a negative power")
    else .ok (.vfloat ⟨1, a ^ (-b).toNat⟩)
| x, y =>
    if Int.emod y.fnum y.fden = 0 then
      let e := Int.tdiv y.fnum y.fden
      if 0 ≤ e then .ok (.vfloat ⟨x.fnum ^ e.toNat, x.fden ^ e.toNat⟩)
      else if x.fnum = 0 then
        .error (.zeroDivisionError "0.0 cannot be raised to a negative power")
      else .ok (.vfloat ⟨x.fden ^ (-e).toNat, x.fnum ^ (-e).toNat⟩)
    else .ok (.vfloat ⟨0, 1⟩)

/-- The `ops` dispatch table of the `BinOpNode` branch of
`Interpreter.eval`, applied to the two evaluated operands.  `None`
operands (possible only for hand-built trees, since parsed operands are
always value-producing expressions) raise `TypeError` exactly where
Python would; an unknown operator string raises `KeyError` as the dict
lookup would. -/
def applyBinOp (op : String) (a b : Option Value) : Except Err Value :=
  match op with
  | "+" =>
    match a, b with
    | some x, some y => .ok (Value.add x y)
    | _, _ => .error (.typeError "unsupported operand type(s) for +")
  | "-" =>
    match a, b with
    | some x, some y => .ok (Value.sub x y)
    | _, _ => .error (.typeError "unsupported operand type(s) for -")
  | "*" =>
    match a, b with
    | some x, some y => .ok (Value.mul x y)
    | _, _ => .error (.typeError "unsupported operand type(s) for *")
  | "/" =>
    match b with
    | some y =>
      if y.fnum = 0 then .error (.zeroDivisionError "Division by zero")
      else
        match a with
        | some x => .ok (Value.div x y)
        | none => .error (.typeError "unsupported operand type(s) for /")
    | none => .error (.typeError "unsupported operand type(s) for /")
  | "%" =>
    match a, b with
    | some x, some y => Value.mod x y
    | _, _ => .error (.typeError "unsupported operand type(s) for %")
  | "**" =>
    match a, b with
    | some x, some y => Value.pow x y
    | _, _ => .error (.typeError "unsupported operand type(s) for **")
  | "==" =>
    match a, b with
    | some x, some y => .ok (.vint (if valEq x y then 1 else 0))
    | none, none => .ok (.vint 1)
    | _, _ => .ok (.vint 0)
  | "!=" =>
    match a, b with
    | some x, some y => .ok (.vint (if valEq x y then 0 else 1))
    | none, none => .ok (.vint 0)
    | _, _ => .ok (.vint 1)
  | "<" =>
    match a, b with
    | some x, some y => .ok (.vint (if valLt x y then 1 else 0))
    | _, _ => .error (.typeError "not supported between instances for <")
  | ">" =>
    match a, b with
    | some x, some y => .ok (.vint (if valLt y x then 1 else 0))
    | _, _ => .error (.typeError "not supported between instances for >")
  | "<=" =>
    match a, b with
    | some x, some y => .ok (.vint (if valLe x y then 1 else 0))
    | _, _ => .error (.typeError "not supported between instances for <=")
  | ">=" =>
    match a, b with
    | some x, some y => .ok (.vint (if valLe y x then 1 else 0))
    | _, _ => .error (.typeError "not supported between instances for >=")
  | _ => .error (.keyError op)

/-! ## Tokens and the lexer -/

/-- `TokenType`: one variant per token kind, as in the source. -/
inductive TokType
| NUMBER | IDENT
| PLUS | MINUS | MUL | DIV | MOD | POW
| ASSIGN | EQ | NEQ | LT | GT | LTE | GTE
| LPAREN | RPAREN | PRINT | IF | ELSE | WHILE
| LBRACE | RBRACE | SEMICOL | EOF
deriving DecidableEq, Repr

/-- The string name of a token type (the Python `TokenType` constants),
used in error messages. -/
def TokType.str : TokType → String
| .NUMBER => "NUMBER" | .IDENT => "IDENT"
| .PLUS => "PLUS" | .MINUS => "MINUS" | .MUL => "MUL" | .DIV => "DIV"
| .MOD => "MOD" | .POW => "POW"
| .ASSIGN => "ASSIGN" | .EQ => "EQ" | .NEQ => "NEQ" | .LT => "LT"
| .GT => "GT" | .LTE => "LTE" | .GTE => "GTE"
| .LPAREN => "LPAREN" | .RPAREN => "RPAREN" | .PRINT => "PRINT"
| .IF => "IF" | .ELSE => "ELSE" | .WHILE => "WHILE"
| .LBRACE => "LBRACE" | .RBRACE => "RBRACE" | .SEMICOL => "SEMICOL"
| .EOF => "EOF"

/-- The `value` field of a token: a number for NUMBER tokens, the matched
text for every other lexed token, `None` for the EOF sentinel. -/
inductive TokVal
| vnum (v : Value)
| vstr (s : String)
| vnone
deriving DecidableEq, Repr

/-- Display form of a token value, for parser error messages. -/
def TokVal.str : TokVal → String
| .vnum (.vint n) => toString n
| .vnum (.vfloat fl) => toString fl.num ++ "/" ++ toString fl.den
| .vstr s => s
| .vnone => "None"

/-- The token value as a string (identifier names and operator text).
Lexer-produced IDENT and operator tokens always carry a string. -/
def TokVal.asStr : TokVal → String
| .vstr s => s
| _ => ""

/-- The token value as a number.  Lexer-produced NUMBER tokens always
carry a number. -/
def TokVal.asNum : TokVal → Value
| .vnum v => v
| _ => .vint 0

/-- A token: kind, carried value and 1-based source line. -/
structure Token where
  type : TokType
  value : TokVal
  line : Nat
deriving DecidableEq, Repr

/-- Python `str.isspace` for the ASCII whitespace the language uses.
(The character classes here — whitespace, `\d`, `[a-zA-Z_]`, `\w` — are
modelled at the ASCII level; Python's regexes also accept some non-ASCII
code points, which no program of this language uses.) -/
def pyIsSpace (c : Char) : Bool :=
  c = ' ' || c = '\t' || c = '\n' || c = '\r' || c = '\x0b' || c = '\x0c'

/-- First character of an identifier: `[a-zA-Z_]`. -/
def isIdentStart (c : Char) : Bool := c.isAlpha || c = '_'

/-- Later characters of an identifier: `\w`. -/
def isIdentChar (c : Char) : Bool := c.isAlphanum || c = '_'

/-- Greedy match of the NUMBER pattern `\d+(\.\d+)?` against a prefix of
the input, returning the matched characters. -/
def matchNumber (cs : List Char) : Option (List Char) :=
  let ds := cs.takeWhile Char.isDigit
  if ds.isEmpty then none
  else
    match cs.drop ds.length with
    | '.' :: r2 =>
      let fs := r2.takeWhile Char.isDigit
      if fs.isEmpty then some ds else some (ds ++ '.' :: fs)
    | _ => some ds

/-- Greedy match of the IDENT pattern `[a-zA-Z_]\w*` against a prefix of
the input. -/
def matchIdent (cs : List Char) : Option (List Char) :=
  match cs with
  | c :: rest => if isIdentStart c then some (c :: rest.takeWhile isIdentChar) else none
  | [] => none

/-- `TOKEN_PATTERNS`: the ordered lexical rules.  Clauses are tried top
to bottom, mirroring the priority order of the source list (NUMBER,
IDENT, `==`, `!=`, `<=`, `>=`, `<`, `>`, `=`, `+`, `-`, `**`, `*`, `/`,
`%`, parentheses, braces, `;`). -/
def matchToken (cs : List Char) : Option (TokType × List Char) :=
  match matchNumber cs with
  | some m => some (.NUMBER, m)
  | none =>
    match matchIdent cs with
    | some m => some (.IDENT, m)
    | none =>
      match cs with
      | [] => none
      | c :: rest =>
        if c = '=' ∧ rest.head? = some '=' then some (.EQ, ['=', '='])
        else if c = '!' ∧ rest.head? = some '=' then some (.NEQ, ['!', '='])
        else if c = '<' ∧ rest.head? = some '=' then some (.LTE, ['<', '='])
        else if c = '>' ∧ rest.head? = some '=' then some (.GTE, ['>', '='])
        else if c = '<' then some (.LT, ['<'])
        else if c = '>' then some (.GT, ['>'])
        else if c = '=' then some (.ASSIGN, ['='])
        else if c = '+' then some (.PLUS, ['+'])
        else if c = '-' then some (.MINUS, ['-'])
        else if c = '*' ∧ rest.head? = some '*' then some (.POW, ['*', '*'])
        else if c = '*' then some (.MUL, ['*'])
        else if c = '/' then some (.DIV, ['/'])
        else if c = '%' then some (.MOD, ['%'])
        else if c = '(' then some (.LPAREN, ['('])
        else if c = ')' then some (.RPAREN, [')'])
        else if c = '\x7b' then some (.LBRACE, ['\x7b'])
        else if c = '\x7d' then some (.RBRACE, ['\x7d'])
        else if c = ';' then some (.SEMICOL, [';'])
        else none

/-- Digit run to a natural number (as Python `int` on a digit string). -/
def digitsToNat (ds : List Char) : Nat :=
  ds.foldl (fun n c => 10 * n + (c.toNat - 48)) 0

/-- The value of a NUMBER literal: `float(text)` when it contains a dot
(exact fraction over a power of ten), `int(text)` otherwise. -/
def parseNumLit (text : List Char) : Value :=
  if text.contains '.' then
    let intPart := text.takeWhile (fun c => c ≠ '.')
    let fracPart := (text.dropWhile (fun c => c ≠ '.')).drop 1
    .vfloat ⟨(digitsToNat intPart : Int) * (10 : Int) ^ fracPart.length +
               (digitsToNat fracPart : Int),
             (10 : Int) ^ fracPart.length⟩
  else .vint (digitsToNat text)

/-- The reserved words `{print, if, else, while}` and the token type each
identifier is re-classified to (`val.upper()` in the source). -/
def keywordType : String → Option TokType := fun s =>
  if s = "print" then some .PRINT
  else if s = "if" then some .IF
  else if s = "else" then some .ELSE
  else if s = "while" then some .WHILE
  else none

/-- Build the token for a matched rule: NUMBER carries its parsed numeric
value, an IDENT matching a keyword is re-classified, every other token
carries the matched text. -/
def mkToken (tt : TokType) (text : List Char) (line : Nat) : Token :=
  match tt with
  | .NUMBER => ⟨.NUMBER, .vnum (parseNumLit text), line⟩
  | .IDENT =>
    let s := String.mk text
    match keywordType s with
    | some kw => ⟨kw, .vstr s, line⟩
    | none => ⟨.IDENT, .vstr s, line⟩
  | _ => ⟨tt, .vstr (String.mk text), line⟩

/-- The tokenizer loop of `Lexer.tokenize`: skip whitespace (counting
newlines), skip `//` comments up to (not including) the newline, then try
the ordered patterns; fail on an unknown character.  Each step consumes
at least one character, so `length + 1` fuel always suffices. -/
def tokenizeAux : Nat → List Char → Nat → List Token → Except Err (List Token)
| 0, _, _, _ => .error .outOfFuel
| f+1, cs, line, acc =>
  match cs with
  | [] => .ok (acc ++ [⟨.EOF, .vnone, line⟩])
  | c :: rest =>
    if pyIsSpace c then
      tokenizeAux f rest (if c = '\n' then line + 1 else line) acc
    else if c = '/' ∧ rest.head? = some '/' then
      tokenizeAux f ((c :: rest).dropWhile (fun ch => ch ≠ '\n')) line acc
    else
      match matchToken (c :: rest) with
      | some (tt, text) =>
        tokenizeAux f ((c :: rest).drop text.length) line (acc ++ [mkToken tt text line])
      | none =>
        .error (.synError ("[Lexer] Unknown character " ++ String.mk [c] ++
                           " at line " ++ toString line))

/-- `Lexer(source).tokenize()`. -/
def tokenize (source : String) : Except Err (List Token) :=
  tokenizeAux (source.length + 1) source.data 1 []

/-! ## AST -/

/-- The AST node variants (`NumberNode`, `VarNode`, `BinOpNode`,
`UnaryNode`, `AssignNode`, `PrintNode`, `IfNode`, `WhileNode`,
`BlockNode`). -/
inductive Node
| number (value : Value)
| var (name : String)
| binop (left : Node) (op : String) (right : Node)
| unary (op : String) (operand : Node)
| assign (name : String) (value : Node)
| printNode (expr : Node)
| ifNode (condition : Node) (thenBody : List Node) (elseBody : Option (List Node))
| whileNode (condition : Node) (body : List Node)
| block (statements : List Node)

/-! ## Parser (recursive descent) -/

/-- The comparison-operator table of `Parser.comparison`, mapping token
types to operator strings. -/
def compOps : TokType → Option String
| .EQ => some "=="
| .NEQ => some "!="
| .LT => some "<"
| .GT => some ">"
| .LTE => some "<="
| .GTE => some ">="
| _ => none

/-- `Parser.eat`: require a token of the given type and consume it;
`IndexError` models `self.current()` past the end of the token list
(unreachable on lexer output, which always ends in EOF). -/
def eat (tt : TokType) (ts : List Token) : Except Err (Token × List Token) :=
  match ts with
  | [] => .error .indexError
  | t :: rest =>
    if t.type = tt then .ok (t, rest)
    else .error (.synError ("[Parser] Expected " ++ tt.str ++ ", got " ++
      t.type.str ++ " (" ++ t.value.str ++ ") at line " ++ toString t.line))

/-- `Parser.optional_semicolon`: consume one SEMICOL if present. -/
def optionalSemicolon (ts : List Token) : Except Err (List Token) :=
  match ts with
  | [] => .error .indexError
  | t :: rest => if t.type = .SEMICOL then .ok rest else .ok ts

mutual

/-- `Parser.statement`: print / if / while / assignment (recognized by
one extra token of lookahead) / bare expression. -/
def statementF : Nat → List Token → Except Err (Node × List Token)
| 0, _ => .error .outOfFuel
| f+1, ts =>
  match ts with
  | [] => .error .indexError
  | tok :: rest =>
    if tok.type = .PRINT then
      match eat .LPAREN rest with
      | .error er => .error er
      | .ok (_, ts2) =>
        match expressionF f ts2 with
        | .error er => .error er
        | .ok (ex, ts3) =>
          match eat .RPAREN ts3 with
          | .error er => .error er
          | .ok (_, ts4) =>
            match optionalSemicolon ts4 with
            | .error er => .error er
            | .ok ts5 => .ok (.printNode ex, ts5)
    else if tok.type = .IF then ifStmtF f ts
    else if tok.type = .WHILE then whileStmtF f ts
    else if tok.type = .IDENT then
      match rest with
      | [] => .error .indexError
      | tok2 :: rest2 =>
        if tok2.type = .ASSIGN then
          match expressionF f rest2 with
          | .error er => .error er
          | .ok (v, ts3) =>
            match optionalSemicolon ts3 with
            | .error er => .error er
            | .ok ts4 => .ok (.assign tok.value.asStr v, ts4)
        else exprStatementF f ts
    else exprStatementF f ts

/-- The final `else` of `Parser.statement`: a bare expression statement
with optional semicolon. -/
def exprStatementF : Nat → List Token → Except Err (Node × List Token)
| 0, _ => .error .outOfFuel
| f+1, ts =>
  match expressionF f ts with
  | .error er => .error er
  | .ok (ex, ts2) =>
    match optionalSemicolon ts2 with
    | .error er => .error er
    | .ok ts3 => .ok (ex, ts3)

/-- `Parser.if_stmt`. -/
def ifStmtF : Nat → List Token → Except Err (Node × List Token)
| 0, _ => .error .outOfFuel
| f+1, ts =>
  match eat .IF ts with
  | .error er => .error er
  | .ok (_, ts1) =>
    match eat .LPAREN ts1 with
    | .error er => .error er
    | .ok (_, ts2) =>
      match expressionF f ts2 with
      | .error er => .error er
      | .ok (cond, ts3) =>
        match eat .RPAREN ts3 with
        | .error er => .error er
        | .ok (_, ts4) =>
          match eat .LBRACE ts4 with
          | .error er => .error er
          | .ok (_, ts5) =>
            match stmtListF f ts5 with
            | .error er => .error er
            | .ok (thenB, ts6) =>
              match eat .RBRACE ts6 with
              | .error er => .error er
              | .ok (_, ts7) =>
                match ts7 with
                | [] => .error .indexError
                | t :: ts8 =>
                  if t.type = .ELSE then
                    match eat .LBRACE ts8 with
                    | .error er => .error er
                    | .ok (_, ts9) =>
                      match stmtListF f ts9 with
                      | .error er => .error er
                      | .ok (elseB, ts10) =>
                        match eat .RBRACE ts10 with
                        | .error er => .error er
                        | .ok (_, ts11) => .ok (.ifNode cond thenB (some elseB), ts11)
                  else .ok (.ifNode cond thenB none, ts7)

/-- `Parser.while_stmt`. -/
def whileStmtF : Nat → List Token → Except Err (Node × List Token)
| 0, _ => .error .outOfFuel
| f+1, ts =>
  match eat .WHILE ts with
  | .error er => .error er
  | .ok (_, ts1) =>
    match eat .LPAREN ts1 with
    | .error er => .error er
    | .ok (_, ts2) =>
      match expressionF f ts2 with
      | .error er => .error er
      | .ok (cond, ts3) =>
        match eat .RPAREN ts3 with
        | .error er => .error er
        | .ok (_, ts4) =>
          match eat .LBRACE ts4 with
          | .error er => .error er
          | .ok (_, ts5) =>
            match stmtListF f ts5 with
            | .error er => .error er
            | .ok (body, ts6) =>
              match eat .RBRACE ts6 with
              | .error er => .error er
              | .ok (_, ts7) => .ok (.whileNode cond body, ts7)

/-- The `while current != RBRACE: body.append(statement())` loops of
`if_stmt` and `while_stmt`. -/
def stmtListF : Nat → List Token → Except Err (List Node × List Token)
| 0, _ => .error .outOfFuel
| f+1, ts =>
  match ts with
  | [] => .error .indexError
  | t :: _ =>
    if t.type = .RBRACE then .ok ([], ts)
    else
      match statementF f ts with
      | .error er => .error er
      | .ok (s, ts2) =>
        match stmtListF f ts2 with
        | .error er => .error er
        | .ok (ss, ts3) => .ok (s :: ss, ts3)

/-- The `while current != EOF: stmts.append(statement())` loop of
`Parser.parse`. -/
def programF : Nat → List Token → Except Err (List Node × List Token)
| 0, _ => .error .outOfFuel
| f+1, ts =>
  match ts with
  | [] => .error .indexError
  | t :: _ =>
    if t.type = .EOF then .ok ([], ts)
    else
      match statementF f ts with
      | .error er => .error er
      | .ok (s, ts2) =>
        match programF f ts2 with
        | .error er => .error er
        | .ok (ss, ts3) => .ok (s :: ss, ts3)

/-- `Parser.expression`. -/
def expressionF : Nat → List Token → Except Err (Node × List Token)
| 0, _ => .error .outOfFuel
| f+1, ts => comparisonF f ts

/-- `Parser.comparison` (left-associative comparison chain). -/
def comparisonF : Nat → List Token → Except Err (Node × List Token)
| 0, _ => .error .outOfFuel
| f+1, ts =>
  match additiveF f ts with
  | .error er => .error er
  | .ok (left, ts2) => comparisonLoopF f left ts2

/-- The `while current in ops` loop of `Parser.comparison`. -/
def comparisonLoopF : Nat → Node → List Token → Except Err (Node × List Token)
| 0, _, _ => .error .outOfFuel
| f+1, left, ts =>
  match ts with
  | [] => .error .indexError
  | t :: rest =>
    match compOps t.type with
    | some op =>
      match additiveF f rest with
      | .error er => .error er
      | .ok (right, ts2) => comparisonLoopF f (.binop left op right) ts2
    | none => .ok (left, ts)

/-- `Parser.additive`. -/
def additiveF : Nat → List Token → Except Err (Node × List Token)
| 0, _ => .error .outOfFuel
| f+1, ts =>
  match multiplicativeF f ts with
  | .error er => .error er
  | .ok (left, ts2) => additiveLoopF f left ts2

/-- The `while current in (PLUS, MINUS)` loop of `Parser.additive`; the
operator string is the token's value. -/
def additiveLoopF : Nat → Node → List Token → Except Err (Node × List Token)
| 0, _, _ => .error .outOfFuel
| f+1, left, ts =>
  match ts with
  | [] => .error .indexError
  | t :: rest =>
    if t.type = .PLUS ∨ t.type = .MINUS then
      match multiplicativeF f rest with
      | .error er => .error er
      | .ok (right, ts2) => additiveLoopF f (.binop left t.value.asStr right) ts2
    else .ok (left, ts)

/-- `Parser.multiplicative`. -/
def multiplicativeF : Nat → List Token → Except Err (Node × List Token)
| 0, _ => .error .outOfFuel
| f+1, ts =>
  match powerF f ts with
  | .error er => .error er
  | .ok (left, ts2) => multiplicativeLoopF f left ts2

/-- The `while current in (MUL, DIV, MOD)` loop of
`Parser.multiplicative`. -/
def multiplicativeLoopF : Nat → Node → List Token → Except Err (Node × List Token)
| 0, _, _ => .error .outOfFuel
| f+1, left, ts =>
  match ts with
  | [] => .error .indexError
  | t :: rest =>
    if t.type = .MUL ∨ t.type = .DIV ∨ t.type = .MOD then
      match powerF f rest with
      | .error er => .error er
      | .ok (right, ts2) => multiplicativeLoopF f (.binop left t.value.asStr right) ts2
    else .ok (left, ts)

/-- `Parser.power`: right-associative, recursing into itself on the
right-hand side of `**`. -/
def powerF : Nat → List Token → Except Err (Node × List Token)
| 0, _ => .error .outOfFuel
| f+1, ts =>
  match unaryF f ts with
  | .error er => .error er
  | .ok (base, ts2) =>
    match ts2 with
    | [] => .error .indexError
    | t :: rest =>
      if t.type = .POW then
        match powerF f rest with
        | .error er => .error er
        | .ok (ex, ts3) => .ok (.binop base "**" ex, ts3)
      else .ok (base, ts2)

/-- `Parser.unary`: a prefix `-` applies to a primary. -/
def unaryF : Nat → List Token → Except Err (Node × List Token)
| 0, _ => .error .outOfFuel
| f+1, ts =>
  match ts with
  | [] => .error .indexError
  | t :: rest =>
    if t.type = .MINUS then
      match primaryF f rest with
      | .error er => .error er
      | .ok (operand, ts2) => .ok (.unary "-" operand, ts2)
    else primaryF f ts

/-- `Parser.primary`: number, variable, or parenthesized expression. -/
def primaryF : Nat → List Token → Except Err (Node × List Token)
| 0, _ => .error .outOfFuel
| f+1, ts =>
  match ts with
  | [] => .error .indexError
  | t :: rest =>
    if t.type = .NUMBER then .ok (.number t.value.asNum, rest)
    else if t.type = .IDENT then .ok (.var t.value.asStr, rest)
    else if t.type = .LPAREN then
      match expressionF f rest with
      | .error er => .error er
      | .ok (ex, ts2) =>
        match eat .RPAREN ts2 with
        | .error er => .error er
        | .ok (_, ts3) => .ok (ex, ts3)
    else
      .error (.synError ("[Parser] Unexpected token " ++ t.type.str ++ " (" ++
        t.value.str ++ ") at line " ++ toString t.line))

end

/-- `Parser(tokens).parse()`: every top-level statement up to EOF,
wrapped in a `Block`.  The parser's call depth is bounded by a small
multiple of the token count, so the chosen fuel always suffices for
lexer-produced input. -/
def parse (ts : List Token) : Except Err Node :=
  match programF (10 * ts.length + 20) ts with
  | .ok (stmts, _) => .ok (.block stmts)
  | .error er => .error er

/-! ## Interpreter -/

/-- Interpreter state: the variable environment (an insertion-ordered
association list with unique keys, like a Python dict) and the output
log.  Stored values are evaluation results and can in principle be
`None` for hand-built trees; parsed programs only ever store numbers. -/
structure St where
  env : List (String × Option Value)
  output : List (Option Value)
deriving DecidableEq, Repr

/-- Dict lookup: `name in env` / `env[name]`. -/
def envLookup : List (String × Option Value) → String → Option (Option Value)
| [], _ => none
| (k, v) :: rest, name => if k = name then some v else envLookup rest name

/-- Dict update `env[name] = v`: overwrite in place, append if new. -/
def envSet : List (String × Option Value) → String → Option Value →
    List (String × Option Value)
| [], name, v => [(name, v)]
| (k, w) :: rest, name, v =>
  if k = name then (k, v) :: rest else (k, w) :: envSet rest name v

/-- The `PrintNode` display conversion: a float with no fractional part
is displayed as its integer form, everything else as-is. -/
def toDisplay : Option Value → Option Value
| some (.vfloat fl) =>
  if Int.emod fl.num fl.den = 0 then some (.vint (Int.tdiv fl.num fl.den))
  else some (.vfloat fl)
| v => v

mutual

/-- `Interpreter.eval`, fuel-indexed.  Returns the Python return value
(`none` models Python `None`) or the raised error, together with the
state reached — mutations made before a raise persist. -/
def evalF : Nat → Node → St → Except Err (Option Value) × St
| 0, _, st => (.error .outOfFuel, st)
| f+1, node, st =>
  match node with
  | .block stmts => evalListF f stmts st
  | .number v => (.ok (some v), st)
  | .var name =>
    match envLookup st.env name with
    | none => (.error (.nameError ("[Runtime] Undefined variable " ++ name)), st)
    | some v => (.ok v, st)
  | .assign name e =>
    match evalF f e st with
    | (.error er, st1) => (.error er, st1)
    | (.ok v, st1) => (.ok v, { st1 with env := envSet st1.env name v })
  | .binop l op r =>
    match evalF f l st with
    | (.error er, st1) => (.error er, st1)
    | (.ok lv, st1) =>
      match evalF f r st1 with
      | (.error er, st2) => (.error er, st2)
      | (.ok rv, st2) =>
        match applyBinOp op lv rv with
        | .ok v => (.ok (some v), st2)
        | .error er => (.error er, st2)
  | .unary op e =>
    match evalF f e st with
    | (.error er, st1) => (.error er, st1)
    | (.ok v, st1) =>
      if op = "-" then
        match v with
        | some w => (.ok (some (Value.neg w)), st1)
        | none => (.error (.typeError "bad operand type for unary -"), st1)
      else (.ok v, st1)
  | .printNode e =>
    match evalF f e st with
    | (.error er, st1) => (.error er, st1)
    | (.ok v, st1) =>
      let shown := toDisplay v
      (.ok shown, { st1 with output := st1.output ++ [shown] })
  | .ifNode cond thenB elseB =>
    match evalF f cond st with
    | (.error er, st1) => (.error er, st1)
    | (.ok v, st1) =>
      if truthy v then
        match evalListF f thenB st1 with
        | (.error er, st2) => (.error er, st2)
        | (.ok _, st2) => (.ok none, st2)
      else
        match elseB with
        | some els =>
          match evalListF f els st1 with
          | (.error er, st2) => (.error er, st2)
          | (.ok _, st2) => (.ok none, st2)
        | none => (.ok none, st1)
  | .whileNode cond body => evalWhileF f cond body 0 st

/-- Sequential statement evaluation (the `for stmt in ...` loops of the
`Block`, `If` and `While` branches); the result is the last statement's
value, `none` for an empty list, as in the `Block` branch. -/
def evalListF : Nat → List Node → St → Except Err (Option Value) × St
| 0, _, st => (.error .outOfFuel, st)
| f+1, stmts, st =>
  match stmts with
  | [] => (.ok none, st)
  | s :: rest =>
    match evalF f s st with
    | (.error er, st1) => (.error er, st1)
    | (.ok v, st1) =>
      match rest with
      | [] => (.ok v, st1)
      | _ :: _ => evalListF f rest st1

/-- The `WhileNode` loop: evaluate the condition; while truthy, bump the
iteration counter, fail fatally once it exceeds 10000, otherwise run the
body and repeat. -/
def evalWhileF : Nat → Node → List Node → Nat → St → Except Err (Option Value) × St
| 0, _, _, _, st => (.error .outOfFuel, st)
| f+1, cond, body, iterations, st =>
  match evalF f cond st with
  | (.error er, st1) => (.error er, st1)
  | (.ok v, st1) =>
    if truthy v then
      if iterations + 1 > 10000 then
        (.error (.runtimeError "Infinite loop detected (>10000 iterations)"), st1)
      else
        match evalListF f body st1 with
        | (.error er, st2) => (.error er, st2)
        | (.ok _, st2) => evalWhileF f cond body (iterations + 1) st2
    else (.ok none, st1)

end

/-- Evaluation converges to outcome `r` with final state `st2`: some fuel
(equivalently, by `evalF_mono`, every sufficiently large fuel) yields it.
This is the big-step semantics of `Interpreter.eval`, which always
terminates thanks to the iteration bound. -/
def EvalsTo (node : Node) (st : St) (r : Except Err (Option Value)) (st2 : St) : Prop :=
  ∃ f, evalF f node st = (r, st2) ∧ r ≠ .error .outOfFuel

/-- `run(source, interpreter)` at a given evaluator fuel: tokenize,
parse, evaluate; an error from any stage is caught and reported, leaving
the state the evaluation reached. -/
def runF (f : Nat) (source : String) (st : St) : St × Option Err :=
  match tokenize source with
  | .error er => (st, some er)
  | .ok tokens =>
    match parse tokens with
    | .error er => (st, some er)
    | .ok ast =>
      match evalF f ast st with
      | (.ok _, st1) => (st1, none)
      | (.error er, st1) => (st1, some er)

/-- The `run` call converges to the given final state and reported
error. -/
def RunsTo (source : String) (st : St) (out : St × Option Err) : Prop :=
  ∃ f, runF f source st = out ∧ out.2 ≠ some .outOfFuel


/-! ## Fuel monotonicity of the evaluator -/

/-- Fuel monotonicity, proved simultaneously for the three mutually
recursive evaluator functions: a converged outcome (anything but the
out-of-fuel marker) is stable under increasing the fuel. -/
theorem evalMono :
    ∀ f g : Nat, f ≤ g →
      (∀ n st r st2, evalF f n st = (r, st2) → r ≠ .error .outOfFuel →
        evalF g n st = (r, st2)) ∧
      (∀ ns st r st2, evalListF f ns st = (r, st2) → r ≠ .error .outOfFuel →
        evalListF g ns st = (r, st2)) ∧
      (∀ c b it st r st2, evalWhileF f c b it st = (r, st2) → r ≠ .error .outOfFuel →
        evalWhileF g c b it st = (r, st2)) := by
  intro f
  induction f with
  | zero =>
    intro g _
    refine ⟨?_, ?_, ?_⟩
    · intro n st r st2 h hr
      simp only [evalF] at h
      rw [Prod.mk.injEq] at h
      exact absurd h.1.symm hr
    · intro ns st r st2 h hr
      simp only [evalListF] at h
      rw [Prod.mk.injEq] at h
      exact absurd h.1.symm hr
    · intro c b it st r st2 h hr
      simp only [evalWhileF] at h
      rw [Prod.mk.injEq] at h
      exact absurd h.1.symm hr
  | succ f ih =>
    intro g hg
    match g, hg with
    | g+1, hg =>
      have hf : f ≤ g := Nat.le_of_succ_le_succ hg
      obtain ⟨ih1, ih2, ih3⟩ := ih g hf
      refine ⟨?_, ?_, ?_⟩
      · intro n st r st2 h hr
        cases n with
        | block stmts =>
          simp only [evalF] at h ⊢
          exact ih2 stmts st r st2 h hr
        | number v =>
          simp only [evalF] at h ⊢
          exact h
        | var name =>
          simp only [evalF] at h ⊢
          exact h
        | assign name e =>
          simp only [evalF] at h ⊢
          split at h
          next er st1 heq =>
            rw [Prod.mk.injEq] at h
            obtain ⟨rfl, rfl⟩ := h
            rw [ih1 e st _ _ heq hr]
          next v st1 heq =>
            rw [ih1 e st _ _ heq (by simp)]
            exact h
        | binop l op rr =>
          simp only [evalF] at h ⊢
          split at h
          next er st1 heq =>
            rw [Prod.mk.injEq] at h
            obtain ⟨rfl, rfl⟩ := h
            rw [ih1 l st _ _ heq hr]
          next lv st1 heq =>
            rw [ih1 l st _ _ heq (by simp)]
            dsimp only
            split at h
            next er st2a heq2 =>
              rw [Prod.mk.injEq] at h
              obtain ⟨rfl, rfl⟩ := h
              rw [ih1 rr st1 _ _ heq2 hr]
            next rv st2a heq2 =>
              rw [ih1 rr st1 _ _ heq2 (by simp)]
              exact h
        | unary op e =>
          simp only [evalF] at h ⊢
          split at h
          next er st1 heq =>
            rw [Prod.mk.injEq] at h
            obtain ⟨rfl, rfl⟩ := h
            rw [ih1 e st _ _ heq hr]
          next v st1 heq =>
            rw [ih1 e st _ _ heq (by simp)]
            exact h
        | printNode e =>
          simp only [evalF] at h ⊢
          split at h
          next er st1 heq =>
            rw [Prod.mk.injEq] at h
            obtain ⟨rfl, rfl⟩ := h
            rw [ih1 e st _ _ heq hr]
          next v st1 heq =>
            rw [ih1 e st _ _ heq (by simp)]
            exact h
        | ifNode cond thenB elseB =>
          simp only [evalF] at h ⊢
          split at h
          next er st1 heq =>
            rw [Prod.mk.injEq] at h
            obtain ⟨rfl, rfl⟩ := h
            rw [ih1 cond st _ _ heq hr]
          next v st1 heq =>
            rw [ih1 cond st _ _ heq (by simp)]
            dsimp only
            by_cases ht : truthy v = true
            · rw [if_pos ht] at h ⊢
              split at h
              next er st2a heq2 =>
                rw [Prod.mk.injEq] at h
                obtain ⟨rfl, rfl⟩ := h
                rw [ih2 thenB st1 _ _ heq2 hr]
              next v2 st2a heq2 =>
                rw [ih2 thenB st1 _ _ heq2 (by simp)]
                exact h
            · rw [if_neg ht] at h ⊢
              cases elseB with
              | none => exact h
              | some els =>
                dsimp only at h ⊢
                split at h
                next er st2a heq2 =>
                  rw [Prod.mk.injEq] at h
                  obtain ⟨rfl, rfl⟩ := h
                  rw [ih2 els st1 _ _ heq2 hr]
                next v2 st2a heq2 =>
                  rw [ih2 els st1 _ _ heq2 (by simp)]
                  exact h
        | whileNode cond body =>
          simp only [evalF] at h ⊢
          exact ih3 cond body 0 st r st2 h hr
      · intro ns st r st2 h hr
        cases ns with
        | nil =>
          simp only [evalListF] at h ⊢
          exact h
        | cons s rest =>
          simp only [evalListF] at h ⊢
          split at h
          next er st1 heq =>
            rw [Prod.mk.injEq] at h
            obtain ⟨rfl, rfl⟩ := h
            rw [ih1 s st _ _ heq hr]
          next v st1 heq =>
            rw [ih1 s st _ _ heq (by simp)]
            cases rest with
            | nil => exact h
            | cons s2 rest2 => exact ih2 (s2 :: rest2) st1 r st2 h hr
      · intro c b it st r st2 h hr
        simp only [evalWhileF] at h ⊢
        split at h
        next er st1 heq =>
          rw [Prod.mk.injEq] at h
          obtain ⟨rfl, rfl⟩ := h
          rw [ih1 c st _ _ heq hr]
        next v st1 heq =>
          rw [ih1 c st _ _ heq (by simp)]
          dsimp only
          by_cases ht : truthy v = true
          · rw [if_pos ht] at h ⊢
            by_cases hb : it + 1 > 10000
            · rw [if_pos hb] at h ⊢
              exact h
            · rw [if_neg hb] at h ⊢
              split at h
              next er st2a heq2 =>
                rw [Prod.mk.injEq] at h
                obtain ⟨rfl, rfl⟩ := h
                rw [ih2 b st1 _ _ heq2 hr]
              next v2 st2a heq2 =>
                rw [ih2 b st1 _ _ heq2 (by simp)]
                exact ih3 c b (it + 1) st2a r st2 h hr
          · rw [if_neg ht] at h ⊢
            exact h

/-- Fuel monotonicity for `evalF`. -/
theorem evalF_mono {f g : Nat} {n : Node} {st : St} {r : Except Err (Option Value)}
    {st2 : St} (h : evalF f n st = (r, st2)) (hr : r ≠ .error .outOfFuel)
    (hfg : f ≤ g) : evalF g n st = (r, st2) :=
  (evalMono f g hfg).1 n st r st2 h hr

/-- Fuel monotonicity for `evalListF`. -/
theorem evalListF_mono {f g : Nat} {ns : List Node} {st : St}
    {r : Except Err (Option Value)} {st2 : St} (h : evalListF f ns st = (r, st2))
    (hr : r ≠ .error .outOfFuel) (hfg : f ≤ g) : evalListF g ns st = (r, st2) :=
  (evalMono f g hfg).2.1 ns st r st2 h hr

/-- Fuel monotonicity for `evalWhileF`. -/
theorem evalWhileF_mono {f g : Nat} {c : Node} {b : List Node} {it : Nat} {st : St}
    {r : Except Err (Option Value)} {st2 : St} (h : evalWhileF f c b it st = (r, st2))
    (hr : r ≠ .error .outOfFuel) (hfg : f ≤ g) : evalWhileF g c b it st = (r, st2) :=
  (evalMono f g hfg).2.2 c b it st r st2 h hr

/-- Evaluation outcomes are unique: `EvalsTo` is a (partial) function of
the node and starting state, so it is legitimate big-step semantics. -/
theorem evalsTo_unique {n : Node} {st : St} {r1 r2 : Except Err (Option Value)}
    {st1 st2 : St} (h1 : EvalsTo n st r1 st1) (h2 : EvalsTo n st r2 st2) :
    r1 = r2 ∧ st1 = st2 := by
  obtain ⟨f1, e1, ne1⟩ := h1
  obtain ⟨f2, e2, ne2⟩ := h2
  have l1 := evalF_mono e1 ne1 (Nat.le_max_left f1 f2)
  have l2 := evalF_mono e2 ne2 (Nat.le_max_right f1 f2)
  rw [l1] at l2
  exact ⟨(Prod.mk.injEq _ _ _ _ ▸ l2).1, (Prod.mk.injEq _ _ _ _ ▸ l2).2⟩

/-! ## Helper lemmas -/

/-- Splicing sequential evaluation: if a prefix of statements evaluates
successfully and the remaining statements then produce an outcome, the
concatenation produces that outcome (for some fuel). -/
theorem evalListF_append :
    ∀ (pre rest : List Node), rest ≠ [] →
      ∀ (f1 f2 : Nat) (st0 st1 st2 : St) (v : Option Value)
        (r2 : Except Err (Option Value)),
      evalListF f1 pre st0 = (.ok v, st1) →
      evalListF f2 rest st1 = (r2, st2) → r2 ≠ .error .outOfFuel →
      ∃ F, evalListF F (pre ++ rest) st0 = (r2, st2) := by
  intro pre
  induction pre with
  | nil =>
    intro rest hne f1 f2 st0 st1 st2 v r2 h1 h2 hr2
    match f1, h1 with
    | fp+1, h1 =>
      simp only [evalListF] at h1
      rw [Prod.mk.injEq] at h1
      obtain ⟨-, rfl⟩ := h1
      exact ⟨f2, h2⟩
  | cons p pre2 ih =>
    intro rest hne f1 f2 st0 st1 st2 v r2 h1 h2 hr2
    match f1, h1 with
    | fp+1, h1 =>
      simp only [evalListF] at h1
      split at h1
      next er s1 heqp =>
        rw [Prod.mk.injEq] at h1
        exact absurd h1.1 (by simp)
      next v0 s1 heqp =>
        cases pre2 with
        | nil =>
          rw [Prod.mk.injEq] at h1
          obtain ⟨-, rfl⟩ := h1
          refine ⟨max fp f2 + 1, ?_⟩
          simp only [List.cons_append, List.nil_append, evalListF]
          rw [evalF_mono heqp (by simp) (Nat.le_max_left fp f2)]
          dsimp only
          cases rest with
          | nil => exact absurd rfl hne
          | cons r0 rrest =>
            exact evalListF_mono h2 hr2 (Nat.le_max_right fp f2)
        | cons p2 pre3 =>
          obtain ⟨F, hF⟩ := ih rest hne fp f2 s1 st1 st2 v r2 h1 h2 hr2
          refine ⟨max fp F + 1, ?_⟩
          simp only [List.cons_append, evalListF]
          rw [evalF_mono heqp (by simp) (Nat.le_max_left fp F)]
          dsimp only
          exact evalListF_mono hF hr2 (Nat.le_max_right fp F)

/-! ## The claims -/

/-- C2: operator precedence and associativity — `2 + 3 * 4` evaluates to
`14`, `(2 + 3) * 4` to `20`, and `2 ** 3 ** 2` to `512` because the power
rule is right-associative: it parses as `2 ** (3 ** 2)` (the parsed tree
is stated explicitly). -/
theorem spec_C2 :
    (∃ ts, tokenize "2 + 3 * 4" = .ok ts ∧
      ∃ ast, parse ts = .ok ast ∧
        EvalsTo ast ⟨[], []⟩ (.ok (some (.vint 14))) ⟨[], []⟩) ∧
    (∃ ts, tokenize "(2 + 3) * 4" = .ok ts ∧
      ∃ ast, parse ts = .ok ast ∧
        EvalsTo ast ⟨[], []⟩ (.ok (some (.vint 20))) ⟨[], []⟩) ∧
    (∃ ts, tokenize "2 ** 3 ** 2" = .ok ts ∧
      parse ts = .ok (.block [.binop (.number (.vint 2)) "**"
        (.binop (.number (.vint 3)) "**" (.number (.vint 2)))]) ∧
      EvalsTo (.block [.binop (.number (.vint 2)) "**"
          (.binop (.number (.vint 3)) "**" (.number (.vint 2)))]) ⟨[], []⟩
        (.ok (some (.vint 512))) ⟨[], []⟩) := by
  refine ⟨⟨_, rfl, _, rfl, 50, rfl, by simp⟩,
          ⟨_, rfl, _, rfl, 50, rfl, by simp⟩,
          ⟨_, rfl, rfl, 50, rfl, by simp⟩⟩

/-- C5: lexical tie-breaking — tokenizing `a==b` yields exactly
IDENT(a), EQ, IDENT(b), EOF (never two ASSIGN tokens), and at the rule
level each two-character operator wins over its one-character prefix
while a digit always starts a NUMBER token. -/
theorem spec_C5 :
    tokenize "a==b" = .ok [⟨.IDENT, .vstr "a", 1⟩, ⟨.EQ, .vstr "==", 1⟩,
      ⟨.IDENT, .vstr "b", 1⟩, ⟨.EOF, .vnone, 1⟩] ∧
    (∀ rest, matchToken ('=' :: '=' :: rest) = some (.EQ, ['=', '='])) ∧
    (∀ rest, matchToken ('!' :: '=' :: rest) = some (.NEQ, ['!', '='])) ∧
    (∀ rest, matchToken ('<' :: '=' :: rest) = some (.LTE, ['<', '='])) ∧
    (∀ rest, matchToken ('>' :: '=' :: rest) = some (.GTE, ['>', '='])) ∧
    (∀ rest, matchToken ('*' :: '*' :: rest) = some (.POW, ['*', '*'])) ∧
    (∀ c rest, c.isDigit = true →
      ∃ m, matchToken (c :: rest) = some (.NUMBER, m)) := by
  refine ⟨rfl, fun rest => rfl, fun rest => rfl, fun rest => rfl,
          fun rest => rfl, fun rest => rfl, ?_⟩
  intro c rest hc
  have htw : List.takeWhile Char.isDigit (c :: rest) =
      c :: List.takeWhile Char.isDigit rest := by
    simp [List.takeWhile_cons, hc]
  simp only [matchToken, matchNumber, htw, List.isEmpty_cons, Bool.false_eq_true,
    if_false]
  split
  next m heq => exact ⟨m, rfl⟩
  next heq =>
    exfalso
    split at heq
    · split at heq <;> simp at heq
    · simp at heq

/-- C7: `Print` displays an integer-valued float in integer form (and any
other value as-is) and appends the displayed value to the output log;
`print(6 / 3)` outputs `2`, not `2.0`. -/
theorem spec_C7 :
    RunsTo "print(6 / 3)" ⟨[], []⟩ (⟨[], [some (.vint 2)]⟩, none) ∧
    (∀ fl : PyFloat,
      (Int.emod fl.num fl.den = 0 →
        toDisplay (some (.vfloat fl)) = some (.vint (Int.tdiv fl.num fl.den))) ∧
      (Int.emod fl.num fl.den ≠ 0 →
        toDisplay (some (.vfloat fl)) = some (.vfloat fl))) ∧
    (∀ (e : Node) (st : St) (v : Option Value) (st1 : St),
      EvalsTo e st (.ok v) st1 →
      EvalsTo (.printNode e) st (.ok (toDisplay v))
        { st1 with output := st1.output ++ [toDisplay v] }) := by
  refine ⟨⟨50, rfl, by decide⟩, ?_, ?_⟩
  · intro fl
    constructor
    · intro h
      simp [toDisplay, h]
    · intro h
      simp [toDisplay, h]
  · rintro e st v st1 ⟨f, hf, -⟩
    refine ⟨f + 1, ?_, by simp⟩
    simp only [evalF]
    rw [hf]

/-- C3: a division whose right operand evaluates to zero fails with the
guarded division-by-zero error (after both operands were evaluated); an
error inside a `print` argument propagates before any output is logged,
so `print(5 / 0)` reports the error and appends nothing. -/
theorem spec_C3 :
    (∀ (l r : Node) (st st1 st2 : St) (lv rv : Value),
      EvalsTo l st (.ok (some lv)) st1 →
      EvalsTo r st1 (.ok (some rv)) st2 →
      rv.fnum = 0 →
      EvalsTo (.binop l "/" r) st
        (.error (.zeroDivisionError "Division by zero")) st2) ∧
    (∀ (e : Node) (st st1 : St) (er : Err), er ≠ .outOfFuel →
      EvalsTo e st (.error er) st1 →
      EvalsTo (.printNode e) st (.error er) st1) ∧
    RunsTo "print(5 / 0)" ⟨[], []⟩
      (⟨[], []⟩, some (.zeroDivisionError "Division by zero")) := by
  refine ⟨?_, ?_, ⟨50, rfl, by decide⟩⟩
  · rintro l r st st1 st2 lv rv ⟨f1, h1, -⟩ ⟨f2, h2, -⟩ hz
    refine ⟨max f1 f2 + 1, ?_, by simp⟩
    simp only [evalF]
    rw [evalF_mono h1 (by simp) (Nat.le_max_left f1 f2)]
    dsimp only
    rw [evalF_mono h2 (by simp) (Nat.le_max_right f1 f2)]
    dsimp only
    simp [applyBinOp, hz]
  · rintro e st st1 er hner ⟨f, hf, -⟩
    refine ⟨f + 1, ?_, by simp [hner]⟩
    simp only [evalF]
    rw [hf]

/-- C4: evaluation is not rolled back — if a block fails at some
statement, the environment and output produced by the preceding
statements (and by the failing statement's completed sub-steps) are the
state in which the failure is reported, and a subsequent `run` on that
state observes them (shown on `x = 1 y = z` followed by `print(x)`). -/
theorem spec_C4 :
    (∀ (pre : List Node) (stmt : Node) (post : List Node) (v : Option Value)
       (st0 st1 st2 : St) (er : Err), er ≠ .outOfFuel →
      EvalsTo (.block pre) st0 (.ok v) st1 →
      EvalsTo stmt st1 (.error er) st2 →
      EvalsTo (.block (pre ++ stmt :: post)) st0 (.error er) st2) ∧
    RunsTo "x = 1 y = z" ⟨[], []⟩
      (⟨[("x", some (.vint 1))], []⟩,
       some (.nameError "[Runtime] Undefined variable z")) ∧
    RunsTo "print(x)" ⟨[("x", some (.vint 1))], []⟩
      (⟨[("x", some (.vint 1))], [some (.vint 1)]⟩, none) := by
  refine ⟨?_, ⟨50, rfl, by decide⟩, ⟨50, rfl, by decide⟩⟩
  rintro pre stmt post v st0 st1 st2 er hner ⟨f1, h1, -⟩ ⟨f2, h2, -⟩
  match f1, h1 with
  | fb+1, h1 =>
    simp only [evalF] at h1
    have h2' : evalListF (f2 + 1) (stmt :: post) st1 = (.error er, st2) := by
      simp only [evalListF]
      rw [h2]
    obtain ⟨F, hF⟩ := evalListF_append pre (stmt :: post) (by simp) fb (f2 + 1)
      st0 st1 st2 v (.error er) h1 h2' (by simp [hner])
    refine ⟨F + 1, ?_, by simp [hner]⟩
    simp only [evalF]
    exact hF

/-- C8: the `%` operator is not guarded like `/`, but a zero right
operand still raises the native zero-division error, which `run` catches
and reports; `print(5 % 0)` fails with it and logs no output. -/
theorem spec_C8 :
    (∀ (x y : Value), y.fnum = 0 →
      ∃ msg, Value.mod x y = .error (.zeroDivisionError msg)) ∧
    (∀ (l r : Node) (st st1 st2 : St) (lv rv : Value),
      EvalsTo l st (.ok (some lv)) st1 →
      EvalsTo r st1 (.ok (some rv)) st2 →
      rv.fnum = 0 →
      ∃ msg, EvalsTo (.binop l "%" r) st
        (.error (.zeroDivisionError msg)) st2) ∧
    RunsTo "print(5 % 0)" ⟨[], []⟩
      (⟨[], []⟩, some (.zeroDivisionError "integer modulo by zero")) ∧
    Err.isCaught (.zeroDivisionError "integer modulo by zero") = true := by
  have hmod : ∀ (x y : Value), y.fnum = 0 →
      ∃ msg, Value.mod x y = .error (.zeroDivisionError msg) := by
    intro x y hz
    cases x <;> cases y <;> simp [Value.mod, Value.fnum] at hz ⊢ <;> simp [hz]
  refine ⟨hmod, ?_, ⟨50, rfl, by decide⟩, rfl⟩
  rintro l r st st1 st2 lv rv ⟨f1, h1, -⟩ ⟨f2, h2, -⟩ hz
  obtain ⟨msg, hmsg⟩ := hmod lv rv hz
  refine ⟨msg, max f1 f2 + 1, ?_, by simp⟩
  simp only [evalF]
  rw [evalF_mono h1 (by simp) (Nat.le_max_left f1 f2)]
  dsimp only
  rw [evalF_mono h2 (by simp) (Nat.le_max_right f1 f2)]
  dsimp only
  simp [applyBinOp, hmsg]

/-- C9: chained assignment is rejected — for `a = b = 1` the statement
rule parses `a = b` (the assigned expression is just the variable `b`,
expression parsing never consuming the ASSIGN), leaving `= 1`, and the
next statement fails on the `=` token with a parse error. -/
theorem spec_C9 :
    ∃ ts, tokenize "a = b = 1" = .ok ts ∧
      statementF 40 ts = .ok (.assign "a" (.var "b"),
        [⟨.ASSIGN, .vstr "=", 1⟩, ⟨.NUMBER, .vnum (.vint 1), 1⟩,
         ⟨.EOF, .vnone, 1⟩]) ∧
      ∃ msg, parse ts = .error (.synError msg) := by
  exact ⟨_, rfl, rfl, _, rfl⟩

/-- C10: unary minus does not nest — the operand of a prefix `-` is a
primary, so a second `-` in operand position is a parse error (shown both
at the `unary` rule for arbitrary token tails and on the sources `--5`
and `- -5`), while the parenthesized `-(-5)` parses and evaluates to
`5`. -/
theorem spec_C10 :
    (∀ (f : Nat) (t1 t2 : Token) (rest : List Token),
      t1.type = .MINUS → t2.type = .MINUS →
      ∃ msg, unaryF (f + 2) (t1 :: t2 :: rest) = .error (.synError msg)) ∧
    (∃ ts, tokenize "--5" = .ok ts ∧ ∃ msg, parse ts = .error (.synError msg)) ∧
    (∃ ts, tokenize "- -5" = .ok ts ∧ ∃ msg, parse ts = .error (.synError msg)) ∧
    (∃ ts, tokenize "-(-5)" = .ok ts ∧
      ∃ ast, parse ts = .ok ast ∧
        EvalsTo ast ⟨[], []⟩ (.ok (some (.vint 5))) ⟨[], []⟩) := by
  refine ⟨?_, ⟨_, rfl, _, rfl⟩, ⟨_, rfl, _, rfl⟩, ⟨_, rfl, _, rfl, 50, rfl, by simp⟩⟩
  intro f t1 t2 rest h1 h2
  simp [unaryF, primaryF, h1, h2]

/-- A family of converging evaluations indexed by `0..N` admits one
uniform fuel (by taking the maximum), thanks to monotonicity. -/
theorem uniformFuel :
    ∀ (N : Nat) (nd : Nat → Node) (stIn : Nat → St)
      (res : Nat → Except Err (Option Value)) (stOut : Nat → St),
      (∀ i, i ≤ N → ∃ f, evalF f (nd i) (stIn i) = (res i, stOut i)) →
      (∀ i, i ≤ N → res i ≠ .error .outOfFuel) →
      ∃ F, ∀ i, i ≤ N → evalF F (nd i) (stIn i) = (res i, stOut i) := by
  intro N
  induction N with
  | zero =>
    intro nd stIn res stOut h hne
    obtain ⟨f0, hf0⟩ := h 0 le_rfl
    refine ⟨f0, fun i hi => ?_⟩
    have : i = 0 := Nat.le_zero.mp hi
    subst this
    exact hf0
  | succ N ih =>
    intro nd stIn res stOut h hne
    obtain ⟨F, hF⟩ := ih nd stIn res stOut (fun i hi => h i (le_trans hi (Nat.le_succ N)))
      (fun i hi => hne i (le_trans hi (Nat.le_succ N)))
    obtain ⟨g, hg⟩ := h (N + 1) le_rfl
    refine ⟨max F g, fun i hi => ?_⟩
    rcases Nat.lt_or_ge i (N + 1) with hlt | hge
    · exact evalF_mono (hF i (Nat.lt_succ_iff.mp hlt))
        (hne i (le_trans (Nat.lt_succ_iff.mp hlt) (Nat.le_succ N))) (Nat.le_max_left F g)
    · have : i = N + 1 := le_antisymm hi hge
      subst this
      exact evalF_mono hg (hne _ le_rfl) (Nat.le_max_right F g)

/-- If the condition of a `While` evaluates truthily at every one of the
states reached in its first 10001 evaluations (and the body completes at
each of the 10000 intervening runs), the loop trips the iteration bound:
at the counter value `j` the remaining `10000 - j` iterations plus the
final (10001st overall) condition evaluation produce the fatal error,
with the state left by that last condition evaluation. -/
theorem evalWhileF_diverges :
    ∀ (cond : Node) (body : List Node) (s t : Nat → St) (cv : Nat → Option Value)
      (bv : Nat → Option Value) (FC FB : Nat),
      (∀ i, i ≤ 10000 → evalF FC cond (s i) = (.ok (cv i), t i)) →
      (∀ i, i ≤ 10000 → truthy (cv i) = true) →
      (∀ i, i ≤ 9999 → evalListF FB body (t i) = (.ok (bv i), s (i + 1))) →
      ∀ (k j : Nat), j + k = 10000 →
        evalWhileF (max FC FB + k + 1) cond body j (s j) =
          (.error (.runtimeError "Infinite loop detected (>10000 iterations)"),
           t 10000) := by
  intro cond body s t cv bv FC FB hc htr hb k
  induction k with
  | zero =>
    intro j hj
    have hj' : j = 10000 := by omega
    subst hj'
    simp only [Nat.add_zero, evalWhileF]
    rw [evalF_mono (hc 10000 le_rfl) (by simp) (Nat.le_max_left FC FB)]
    dsimp only
    rw [htr 10000 le_rfl, if_pos rfl, if_pos (by omega : 10000 + 1 > 10000)]
  | succ k ih =>
    intro j hj
    have hfe : max FC FB + (k + 1) + 1 = (max FC FB + k + 1) + 1 := by omega
    rw [hfe]
    simp only [evalWhileF]
    rw [evalF_mono (hc j (by omega)) (by simp)
      (le_trans (Nat.le_max_left FC FB) (by omega))]
    dsimp only
    rw [htr j (by omega), if_pos rfl, if_neg (by omega : ¬ j + 1 > 10000)]
    rw [evalListF_mono (hb j (by omega)) (by simp)
      (le_trans (Nat.le_max_right FC FB) (by omega))]
    dsimp only
    exact ih (j + 1) (by omega)

/-- If the condition of a `While` becomes falsy at its `(k+1)`-st
evaluation for some `k ≤ 10000` (after `k` truthy evaluations and `k`
completed body runs), the loop exits normally without tripping the
bound. -/
theorem evalWhileF_exits :
    ∀ (cond : Node) (body : List Node) (s t : Nat → St) (cv : Nat → Option Value)
      (bv : Nat → Option Value) (FC FB : Nat) (k : Nat), k ≤ 10000 →
      (∀ i, i ≤ k → evalF FC cond (s i) = (.ok (cv i), t i)) →
      (∀ i, i < k → truthy (cv i) = true) →
      truthy (cv k) = false →
      (∀ i, i < k → evalListF FB body (t i) = (.ok (bv i), s (i + 1))) →
      ∀ (d j : Nat), j + d = k →
        evalWhileF (max FC FB + d + 1) cond body j (s j) = (.ok none, t k) := by
  intro cond body s t cv bv FC FB k hk hc htr hfalse hb d
  induction d with
  | zero =>
    intro j hj
    have hj' : j = k := by omega
    subst hj'
    simp only [Nat.add_zero, evalWhileF]
    rw [evalF_mono (hc j le_rfl) (by simp) (Nat.le_max_left FC FB)]
    dsimp only
    rw [hfalse, if_neg (by simp)]
  | succ d ih =>
    intro j hj
    have hfe : max FC FB + (d + 1) + 1 = (max FC FB + d + 1) + 1 := by omega
    rw [hfe]
    simp only [evalWhileF]
    rw [evalF_mono (hc j (by omega)) (by simp)
      (le_trans (Nat.le_max_left FC FB) (by omega))]
    dsimp only
    rw [htr j (by omega), if_pos rfl, if_neg (by omega : ¬ j + 1 > 10000)]
    rw [evalListF_mono (hb j (by omega)) (by simp)
      (le_trans (Nat.le_max_right FC FB) (by omega))]
    dsimp only
    exact ih (j + 1) (by omega)

/-- C1: the iteration bound of `While`.  (a) If the condition evaluates
truthily at each of the 10001 states it is evaluated in (with the body
completing at each of the 10000 intervening runs), evaluation fails with
the iteration-bound RuntimeError exactly at the 10001st condition
evaluation: the final state is the one left by that evaluation, the body
having run exactly 10000 times and not an 10001st.  (b) Conversely, if
the condition becomes false at its `(k+1)`-st evaluation for some
`k ≤ 10000` (at most 10000 body iterations), the loop completes normally
without tripping the bound. -/
theorem spec_C1 : ∀ (cond : Node) (body : List Node),
    (∀ (s t : Nat → St) (cv : Nat → Option Value),
      (∀ i, i ≤ 10000 → EvalsTo cond (s i) (.ok (cv i)) (t i)) →
      (∀ i, i ≤ 10000 → truthy (cv i) = true) →
      (∀ i, i ≤ 9999 → ∃ bv, EvalsTo (.block body) (t i) (.ok bv) (s (i + 1))) →
      EvalsTo (.whileNode cond body) (s 0)
        (.error (.runtimeError "Infinite loop detected (>10000 iterations)"))
        (t 10000)) ∧
    (∀ (k : Nat), k ≤ 10000 → ∀ (s t : Nat → St) (cv : Nat → Option Value),
      (∀ i, i < k → EvalsTo cond (s i) (.ok (cv i)) (t i)) →
      (∀ i, i < k → truthy (cv i) = true) →
      (∀ i, i < k → ∃ bv, EvalsTo (.block body) (t i) (.ok bv) (s (i + 1))) →
      EvalsTo cond (s k) (.ok (cv k)) (t k) →
      truthy (cv k) = false →
      EvalsTo (.whileNode cond body) (s 0) (.ok none) (t k)) := by
  intro cond body
  constructor
  · intro s t cv hcond htru hbody
    obtain ⟨FC, hFC⟩ := uniformFuel 10000 (fun _ => cond) s (fun i => .ok (cv i)) t
      (fun i hi => ⟨(hcond i hi).choose, (hcond i hi).choose_spec.1⟩) (fun i hi => by simp)
    choose bvf hbvf using hbody
    have hbE : ∀ i, i ≤ 9999 → ∃ f,
        evalF f (.block body) (t i) =
          (.ok (if hi : i ≤ 9999 then bvf i hi else none), s (i + 1)) := by
      intro i hi
      obtain ⟨f, hf, -⟩ := hbvf i hi
      rw [dif_pos hi]
      exact ⟨f, hf⟩
    obtain ⟨FB0, hFB0⟩ := uniformFuel 9999 (fun _ => .block body) t
      (fun i => .ok (if hi : i ≤ 9999 then bvf i hi else none)) (fun i => s (i + 1))
      hbE (fun i hi => by simp)
    have hFB : ∀ i, i ≤ 9999 → evalListF FB0 body (t i) =
        (.ok (if hi : i ≤ 9999 then bvf i hi else none), s (i + 1)) := by
      intro i hi
      have hlift := evalF_mono (hFB0 i hi) (by simp) (Nat.le_succ FB0)
      simpa only [evalF] using hlift
    refine ⟨(max FC FB0 + 10000 + 1) + 1, ?_, by simp⟩
    simp only [evalF]
    exact evalWhileF_diverges cond body s t cv
      (fun i => if hi : i ≤ 9999 then bvf i hi else none) FC FB0 hFC htru hFB 10000 0 rfl
  · intro k hk s t cv hcond htru hbody hfin hfalse
    have hcondAll : ∀ i, i ≤ k → EvalsTo cond (s i) (.ok (cv i)) (t i) := by
      intro i hi
      rcases Nat.lt_or_ge i k with hlt | hge
      · exact hcond i hlt
      · have : i = k := le_antisymm hi hge
        subst this
        exact hfin
    obtain ⟨FC, hFC⟩ := uniformFuel k (fun _ => cond) s (fun i => .ok (cv i)) t
      (fun i hi => ⟨(hcondAll i hi).choose, (hcondAll i hi).choose_spec.1⟩)
      (fun i hi => by simp)
    rcases Nat.eq_zero_or_pos k with hk0 | hkpos
    · subst hk0
      refine ⟨(max FC 0 + 0 + 1) + 1, ?_, by simp⟩
      simp only [evalF]
      exact evalWhileF_exits cond body s t cv (fun _ => none) FC 0 0 (by omega) hFC
        (fun i hi => absurd hi (by omega)) hfalse (fun i hi => absurd hi (by omega)) 0 0 rfl
    choose bvf hbvf using hbody
    have hbE : ∀ i, i ≤ k - 1 → ∃ f,
        evalF f (.block body) (t i) =
          (.ok (if hi : i < k then bvf i hi else none), s (i + 1)) := by
      intro i hi
      have hik : i < k := by omega
      obtain ⟨f, hf, -⟩ := hbvf i hik
      rw [dif_pos hik]
      exact ⟨f, hf⟩
    obtain ⟨FB0, hFB0⟩ := uniformFuel (k - 1) (fun _ => .block body) t
      (fun i => .ok (if hi : i < k then bvf i hi else none)) (fun i => s (i + 1))
      hbE (fun i hi => by simp)
    have hFB : ∀ i, i < k → evalListF FB0 body (t i) =
        (.ok (if hi : i < k then bvf i hi else none), s (i + 1)) := by
      intro i hi
      have hlift := evalF_mono (hFB0 i (by omega)) (by simp) (Nat.le_succ FB0)
      simpa only [evalF] using hlift
    refine ⟨(max FC FB0 + k + 1) + 1, ?_, by simp⟩
    simp only [evalF]
    exact evalWhileF_exits cond body s t cv
      (fun i => if hi : i < k then bvf i hi else none) FC FB0 k hk hFC htru hfalse hFB
      k 0 (by omega)

/-! ## Lexer invariants (claim C6) -/

/-- A list with a known head decomposes as a cons. -/
theorem head?_decomp {α : Type} {l : List α} {y : α} (h : l.head? = some y) :
    ∃ l2, l = y :: l2 := by
  cases l with
  | nil => simp at h
  | cons a l2 =>
    simp only [List.head?_cons, Option.some.injEq] at h
    exact ⟨l2, by rw [h]⟩

/-- A list is its `takeWhile` prefix followed by the rest. -/
theorem takeWhile_decomp (p : Char → Bool) (l : List Char) :
    l = l.takeWhile p ++ l.drop (l.takeWhile p).length := by
  have h1 : l.takeWhile p ++ l.dropWhile p = l := List.takeWhile_append_dropWhile p l
  have h2 : (l.takeWhile p ++ l.dropWhile p).drop (l.takeWhile p).length =
      l.dropWhile p := List.drop_left _ _
  rw [h1] at h2
  rw [h2, h1]

/-- If `l` splits as `m ++ r`, then `r` is what dropping `m.length` leaves. -/
theorem append_drop_self {l m r : List Char} (h : l = m ++ r) :
    l = m ++ l.drop m.length := by
  conv_lhs => rw [h]
  rw [h, List.drop_left]

/-- The text matched by the NUMBER rule is a nonempty newline-free prefix
of the input. -/
theorem matchNumber_decomp {cs m : List Char} (h : matchNumber cs = some m) :
    m ≠ [] ∧ cs = m ++ cs.drop m.length ∧ '\n' ∉ m := by
  have hdigit_mem : ∀ (l : List Char), '\n' ∉ l.takeWhile Char.isDigit := by
    intro l ha
    exact absurd (List.mem_takeWhile_imp ha) (by decide)
  simp only [matchNumber] at h
  split at h
  · exact absurd h (by simp)
  next hne =>
    have hds_ne : cs.takeWhile Char.isDigit ≠ [] := by
      intro hnil
      rw [hnil] at hne
      simp at hne
    split at h
    next r2 heq2 =>
      split at h
      next hfs =>
        simp only [Option.some.injEq] at h
        subst h
        exact ⟨hds_ne, takeWhile_decomp Char.isDigit cs, hdigit_mem cs⟩
      next hfs =>
        simp only [Option.some.injEq] at h
        subst h
        have hcs : cs = (cs.takeWhile Char.isDigit ++ '.' :: r2.takeWhile Char.isDigit) ++
            r2.drop (r2.takeWhile Char.isDigit).length := by
          conv_lhs => rw [takeWhile_decomp Char.isDigit cs, heq2,
            takeWhile_decomp Char.isDigit r2]
          simp
        refine ⟨by simp, append_drop_self hcs, ?_⟩
        · intro hmem
          rcases List.mem_append.mp hmem with hmem1 | hmem2
          · exact hdigit_mem cs hmem1
          · rcases List.mem_cons.mp hmem2 with hdot | hmem3
            · exact absurd hdot (by decide)
            · exact hdigit_mem r2 hmem3
    next heq2 =>
      simp only [Option.some.injEq] at h
      subst h
      exact ⟨hds_ne, takeWhile_decomp Char.isDigit cs, hdigit_mem cs⟩

/-- The text matched by the IDENT rule is a nonempty newline-free prefix
of the input. -/
theorem matchIdent_decomp {cs m : List Char} (h : matchIdent cs = some m) :
    m ≠ [] ∧ cs = m ++ cs.drop m.length ∧ '\n' ∉ m := by
  unfold matchIdent at h
  split at h
  next c rest =>
    split at h
    next hstart =>
      simp only [Option.some.injEq] at h
      subst h
      refine ⟨by simp, ?_, ?_⟩
      · refine append_drop_self (m := c :: rest.takeWhile isIdentChar)
          (r := rest.drop (rest.takeWhile isIdentChar).length) ?_
        conv_lhs => rw [takeWhile_decomp isIdentChar rest]
        rfl
      · intro hmem
        rcases List.mem_cons.mp hmem with hc | hmem2
        · rw [← hc] at hstart
          exact absurd hstart (by decide)
        · exact absurd (List.mem_takeWhile_imp hmem2) (by decide)
    · exact absurd h (by simp)
  · exact absurd h (by simp)

/-- Every successful `matchToken` consumes a nonempty newline-free prefix
and never produces the EOF token type. -/
theorem matchToken_decomp {cs : List Char} {tt : TokType} {m : List Char}
    (h : matchToken cs = some (tt, m)) :
    m ≠ [] ∧ cs = m ++ cs.drop m.length ∧ '\n' ∉ m ∧ tt ≠ .EOF := by
  unfold matchToken at h
  split at h
  next m0 hnum =>
    simp only [Option.some.injEq, Prod.mk.injEq] at h
    obtain ⟨rfl, rfl⟩ := h
    obtain ⟨p1, p2, p3⟩ := matchNumber_decomp hnum
    exact ⟨p1, p2, p3, by simp⟩
  next hnum =>
    split at h
    next m0 hid =>
      simp only [Option.some.injEq, Prod.mk.injEq] at h
      obtain ⟨rfl, rfl⟩ := h
      obtain ⟨p1, p2, p3⟩ := matchIdent_decomp hid
      exact ⟨p1, p2, p3, by simp⟩
    next hid =>
      split at h
      · exact absurd h (by simp)
      next c rest =>
        by_cases hc1 : c = '=' ∧ rest.head? = some '='
        · rw [if_pos hc1] at h
          simp only [Option.some.injEq, Prod.mk.injEq] at h
          obtain ⟨rfl, rfl⟩ := h
          obtain ⟨rfl, hh⟩ := hc1
          obtain ⟨r2, rfl⟩ := head?_decomp hh
          exact ⟨by simp, by simp, by decide, by simp⟩
        · rw [if_neg hc1] at h
          by_cases hc2 : c = '!' ∧ rest.head? = some '='
          · rw [if_pos hc2] at h
            simp only [Option.some.injEq, Prod.mk.injEq] at h
            obtain ⟨rfl, rfl⟩ := h
            obtain ⟨rfl, hh⟩ := hc2
            obtain ⟨r2, rfl⟩ := head?_decomp hh
            exact ⟨by simp, by simp, by decide, by simp⟩
          · rw [if_neg hc2] at h
            by_cases hc3 : c = '<' ∧ rest.head? = some '='
            · rw [if_pos hc3] at h
              simp only [Option.some.injEq, Prod.mk.injEq] at h
              obtain ⟨rfl, rfl⟩ := h
              obtain ⟨rfl, hh⟩ := hc3
              obtain ⟨r2, rfl⟩ := head?_decomp hh
              exact ⟨by simp, by simp, by decide, by simp⟩
            · rw [if_neg hc3] at h
              by_cases hc4 : c = '>' ∧ rest.head? = some '='
              · rw [if_pos hc4] at h
                simp only [Option.some.injEq, Prod.mk.injEq] at h
                obtain ⟨rfl, rfl⟩ := h
                obtain ⟨rfl, hh⟩ := hc4
                obtain ⟨r2, rfl⟩ := head?_decomp hh
                exact ⟨by simp, by simp, by decide, by simp⟩
              · rw [if_neg hc4] at h
                by_cases hc5 : c = '<'
                · rw [if_pos hc5] at h
                  simp only [Option.some.injEq, Prod.mk.injEq] at h
                  obtain ⟨rfl, rfl⟩ := h
                  obtain rfl := hc5
                  exact ⟨by simp, by simp, by decide, by simp⟩
                · rw [if_neg hc5] at h
                  by_cases hc6 : c = '>'
                  · rw [if_pos hc6] at h
                    simp only [Option.some.injEq, Prod.mk.injEq] at h
                    obtain ⟨rfl, rfl⟩ := h
                    obtain rfl := hc6
                    exact ⟨by simp, by simp, by decide, by simp⟩
                  · rw [if_neg hc6] at h
                    by_cases hc7 : c = '='
                    · rw [if_pos hc7] at h
                      simp only [Option.some.injEq, Prod.mk.injEq] at h
                      obtain ⟨rfl, rfl⟩ := h
                      obtain rfl := hc7
                      exact ⟨by simp, by simp, by decide, by simp⟩
                    · rw [if_neg hc7] at h
                      by_cases hc8 : c = '+'
                      · rw [if_pos hc8] at h
                        simp only [Option.some.injEq, Prod.mk.injEq] at h
                        obtain ⟨rfl, rfl⟩ := h
                        obtain rfl := hc8
                        exact ⟨by simp, by simp, by decide, by simp⟩
                      · rw [if_neg hc8] at h
                        by_cases hc9 : c = '-'
                        · rw [if_pos hc9] at h
                          simp only [Option.some.injEq, Prod.mk.injEq] at h
                          obtain ⟨rfl, rfl⟩ := h
                          obtain rfl := hc9
                          exact ⟨by simp, by simp, by decide, by simp⟩
                        · rw [if_neg hc9] at h
                          by_cases hc10 : c = '*' ∧ rest.head? = some '*'
                          · rw [if_pos hc10] at h
                            simp only [Option.some.injEq, Prod.mk.injEq] at h
                            obtain ⟨rfl, rfl⟩ := h
                            obtain ⟨rfl, hh⟩ := hc10
                            obtain ⟨r2, rfl⟩ := head?_decomp hh
                            exact ⟨by simp, by simp, by decide, by simp⟩
                          · rw [if_neg hc10] at h
                            by_cases hc11 : c = '*'
                            · rw [if_pos hc11] at h
                              simp only [Option.some.injEq, Prod.mk.injEq] at h
                              obtain ⟨rfl, rfl⟩ := h
                              obtain rfl := hc11
                              exact ⟨by simp, by simp, by decide, by simp⟩
                            · rw [if_neg hc11] at h
                              by_cases hc12 : c = '/'
                              · rw [if_pos hc12] at h
                                simp only [Option.some.injEq, Prod.mk.injEq] at h
                                obtain ⟨rfl, rfl⟩ := h
                                obtain rfl := hc12
                                exact ⟨by simp, by simp, by decide, by simp⟩
                              · rw [if_neg hc12] at h
                                by_cases hc13 : c = '%'
                                · rw [if_pos hc13] at h
                                  simp only [Option.some.injEq, Prod.mk.injEq] at h
                                  obtain ⟨rfl, rfl⟩ := h
                                  obtain rfl := hc13
                                  exact ⟨by simp, by simp, by decide, by simp⟩
                                · rw [if_neg hc13] at h
                                  by_cases hc14 : c = '('
                                  · rw [if_pos hc14] at h
                                    simp only [Option.some.injEq, Prod.mk.injEq] at h
                                    obtain ⟨rfl, rfl⟩ := h
                                    obtain rfl := hc14
                                    exact ⟨by simp, by simp, by decide, by simp⟩
                                  · rw [if_neg hc14] at h
                                    by_cases hc15 : c = ')'
                                    · rw [if_pos hc15] at h
                                      simp only [Option.some.injEq, Prod.mk.injEq] at h
                                      obtain ⟨rfl, rfl⟩ := h
                                      obtain rfl := hc15
                                      exact ⟨by simp, by simp, by decide, by simp⟩
                                    · rw [if_neg hc15] at h
                                      by_cases hc16 : c = '\x7b'
                                      · rw [if_pos hc16] at h
                                        simp only [Option.some.injEq, Prod.mk.injEq] at h
                                        obtain ⟨rfl, rfl⟩ := h
                                        obtain rfl := hc16
                                        exact ⟨by simp, by simp, by decide, by simp⟩
                                      · rw [if_neg hc16] at h
                                        by_cases hc17 : c = '\x7d'
                                        · rw [if_pos hc17] at h
                                          simp only [Option.some.injEq, Prod.mk.injEq] at h
                                          obtain ⟨rfl, rfl⟩ := h
                                          obtain rfl := hc17
                                          exact ⟨by simp, by simp, by decide, by simp⟩
                                        · rw [if_neg hc17] at h
                                          by_cases hc18 : c = ';'
                                          · rw [if_pos hc18] at h
                                            simp only [Option.some.injEq, Prod.mk.injEq] at h
                                            obtain ⟨rfl, rfl⟩ := h
                                            obtain rfl := hc18
                                            exact ⟨by simp, by simp, by decide, by simp⟩
                                          · rw [if_neg hc18] at h
                                            exact absurd h (by simp)

/-- `mkToken` stamps the given line onto the token. -/
theorem mkToken_line (tt : TokType) (text : List Char) (line : Nat) :
    (mkToken tt text line).line = line := by
  cases tt <;> simp only [mkToken] <;> first
    | rfl
    | (split <;> rfl)

/-- Keyword re-classification never produces EOF. -/
theorem keywordType_ne_EOF {s : String} {kw : TokType} (h : keywordType s = some kw) :
    kw ≠ .EOF := by
  unfold keywordType at h
  split_ifs at h <;> first
    | (simp only [Option.some.injEq] at h; subst h; decide)
    | simp at h

/-- `mkToken` never produces the EOF token type from a lexical rule. -/
theorem mkToken_type_ne_EOF (tt : TokType) (text : List Char) (line : Nat)
    (h : tt ≠ .EOF) : (mkToken tt text line).type ≠ .EOF := by
  cases tt
  case IDENT =>
    simp only [mkToken]
    split
    next kw hkw => exact keywordType_ne_EOF hkw
    next => simp
  case EOF => exact absurd rfl h
  all_goals simp [mkToken]

/-- Dropping a line comment (everything up to the next newline) does not
change the number of newlines. -/
theorem count_newline_dropWhile (l : List Char) :
    List.count '\n' (l.dropWhile (fun ch => ch ≠ '\n')) = List.count '\n' l := by
  induction l with
  | nil => rfl
  | cons c rest ih =>
    by_cases hc : c = '\n'
    · subst hc
      rw [List.dropWhile_cons_of_neg (by simp)]
    · rw [List.dropWhile_cons_of_pos (by simp [hc]), ih, List.count_cons]
      simp [hc]

/-- The tokenizer-loop invariant: a successful run extends the
accumulator with a nonempty batch of tokens whose line stamps start at
the current line and never decrease, only the final token is EOF, and
that EOF carries the final line counter `line + (newlines left in the
input)`. -/
theorem tokenizeAux_spec :
    ∀ (f : Nat) (cs : List Char) (line : Nat) (acc ts : List Token),
      tokenizeAux f cs line acc = .ok ts →
      ∃ rest, ts = acc ++ rest ∧ rest ≠ [] ∧
        rest.getLast? = some ⟨.EOF, .vnone, line + List.count '\n' cs⟩ ∧
        (∀ tok ∈ rest.dropLast, tok.type ≠ .EOF) ∧
        (∀ tok ∈ rest, line ≤ tok.line) ∧
        List.Chain' (fun a b => a.line ≤ b.line) rest := by
  intro f
  induction f with
  | zero =>
    intro cs line acc ts h
    simp [tokenizeAux] at h
  | succ f ih =>
    intro cs line acc ts h
    cases cs with
    | nil =>
      simp only [tokenizeAux, Except.ok.injEq] at h
      subst h
      exact ⟨[⟨.EOF, .vnone, line⟩], rfl, by simp, by simp, by simp, by simp, by simp⟩
    | cons c cr =>
      simp only [tokenizeAux] at h
      split at h
      next hsp =>
        obtain ⟨rest, hts, hne, hlast, hdrop, hge, hchain⟩ := ih _ _ _ _ h
        refine ⟨rest, hts, hne, ?_, hdrop, ?_, hchain⟩
        · rw [hlast]
          have harith : (if c = '\n' then line + 1 else line) + List.count '\n' cr =
              line + List.count '\n' (c :: cr) := by
            rw [List.count_cons]
            by_cases hc : c = '\n' <;> simp [hc] <;> omega
          rw [harith]
        · intro tok htok
          have hl := hge tok htok
          split at hl <;> omega
      next hsp =>
        split at h
        next hcm =>
          obtain ⟨rest, hts, hne, hlast, hdrop, hge, hchain⟩ := ih _ _ _ _ h
          refine ⟨rest, hts, hne, ?_, hdrop, hge, hchain⟩
          rw [hlast, count_newline_dropWhile]
        next hcm =>
          split at h
          next tt m hmt =>
            obtain ⟨rest, hts, hne, hlast, hdrop, hge, hchain⟩ := ih _ _ _ _ h
            obtain ⟨hm_ne, hm_pre, hm_nl, htt⟩ := matchToken_decomp hmt
            refine ⟨mkToken tt m line :: rest, by rw [hts]; simp, by simp, ?_, ?_, ?_, ?_⟩
            · cases rest with
              | nil => exact absurd rfl hne
              | cons r0 rrest =>
                rw [List.getLast?_cons_cons, hlast]
                have hcount : List.count '\n' ((c :: cr).drop m.length) =
                    List.count '\n' (c :: cr) := by
                  conv_rhs => rw [hm_pre]
                  rw [List.count_append]
                  have hz : List.count '\n' m = 0 := List.count_eq_zero.mpr hm_nl
                  omega
                rw [hcount]
            · cases rest with
              | nil => exact absurd rfl hne
              | cons r0 rrest =>
                intro tok htok
                have htok2 : tok ∈ mkToken tt m line :: (r0 :: rrest).dropLast := htok
                rcases List.mem_cons.mp htok2 with rfl | htok3
                · exact mkToken_type_ne_EOF tt m line htt
                · exact hdrop tok htok3
            · intro tok htok
              rcases List.mem_cons.mp htok with rfl | htok2
              · rw [mkToken_line]
              · exact hge tok htok2
            · refine List.Chain'.cons' hchain ?_
              intro y hy
              have hymem : y ∈ rest := by
                cases rest with
                | nil => simp at hy
                | cons r0 rrest =>
                  simp only [List.head?_cons, Option.mem_def, Option.some.injEq] at hy
                  subst hy
                  simp
              rw [mkToken_line]
              exact hge y hymem
          next => exact absurd h (by simp)

/-- C6: for every source on which `tokenize` succeeds, the token sequence
is nonempty, exactly its last token is EOF (no earlier token is), that
EOF carries the final line number `1 + (number of newlines)`, and the
token line numbers are 1-based and monotonically non-decreasing across
the whole sequence. -/
theorem spec_C6 :
    ∀ (source : String) (ts : List Token), tokenize source = .ok ts →
      ts ≠ [] ∧
      ts.getLast? = some ⟨.EOF, .vnone, 1 + List.count '\n' source.data⟩ ∧
      (∀ tok ∈ ts.dropLast, tok.type ≠ .EOF) ∧
      ts.countP (fun tok => tok.type == .EOF) = 1 ∧
      (∀ tok ∈ ts, 1 ≤ tok.line) ∧
      List.Chain' (fun a b => a.line ≤ b.line) ts := by
  intro source ts h
  obtain ⟨rest, hts, hne, hlast, hdrop, hge, hchain⟩ :=
    tokenizeAux_spec (source.length + 1) source.data 1 [] ts h
  rw [List.nil_append] at hts
  subst hts
  refine ⟨hne, hlast, hdrop, ?_, hge, hchain⟩
  have hsplit : ts.dropLast ++ [ts.getLast hne] = ts :=
    List.dropLast_concat_getLast hne
  have hlastval : ts.getLast hne = ⟨.EOF, .vnone, 1 + List.count '\n' source.data⟩ := by
    have hl2 := List.getLast?_eq_getLast ts hne
    rw [hl2] at hlast
    injection hlast
  conv_lhs => rw [← hsplit]
  rw [List.countP_append]
  have hz : ts.dropLast.countP (fun tok => tok.type == .EOF) = 0 := by
    rw [List.countP_eq_zero]
    intro tok htok
    simp only [beq_iff_eq]
    exact hdrop tok htok
  have ho : List.countP (fun tok => tok.type == .EOF) [ts.getLast hne] = 1 := by
    rw [hlastval]
    rfl
  omega

/-! ## Concrete instantiations of the hypothesis-bearing claims -/

/-- Instantiation of C1: `while (1) { }` trips the iteration bound, and
`while (0) { }` exits normally. -/
theorem spec_C1_inst :
    EvalsTo (.whileNode (.number (.vint 1)) []) ⟨[], []⟩
      (.error (.runtimeError "Infinite loop detected (>10000 iterations)")) ⟨[], []⟩ ∧
    EvalsTo (.whileNode (.number (.vint 0)) []) ⟨[], []⟩ (.ok none) ⟨[], []⟩ := by
  constructor
  · exact (spec_C1 (.number (.vint 1)) []).1 (fun _ => ⟨[], []⟩) (fun _ => ⟨[], []⟩)
      (fun _ => some (.vint 1)) (fun i hi => ⟨1, rfl, by simp⟩) (fun i hi => rfl)
      (fun i hi => ⟨none, 2, rfl, by simp⟩)
  · exact (spec_C1 (.number (.vint 0)) []).2 0 (by omega) (fun _ => ⟨[], []⟩)
      (fun _ => ⟨[], []⟩) (fun _ => some (.vint 0))
      (fun i hi => absurd hi (Nat.not_lt_zero i))
      (fun i hi => absurd hi (Nat.not_lt_zero i))
      (fun i hi => absurd hi (Nat.not_lt_zero i)) ⟨1, rfl, by simp⟩ rfl

/-- Instantiation of C3: `5 / 0` fails with the division-by-zero error. -/
theorem spec_C3_inst :
    EvalsTo (.binop (.number (.vint 5)) "/" (.number (.vint 0))) ⟨[], []⟩
      (.error (.zeroDivisionError "Division by zero")) ⟨[], []⟩ :=
  spec_C3.1 (.number (.vint 5)) (.number (.vint 0)) ⟨[], []⟩ ⟨[], []⟩ ⟨[], []⟩
    (.vint 5) (.vint 0) ⟨1, rfl, by simp⟩ ⟨1, rfl, by simp⟩ rfl

/-- Instantiation of C4: a block failing at its second statement keeps
the binding made by the first. -/
theorem spec_C4_inst :
    EvalsTo (.block [.assign "x" (.number (.vint 1)), .var "zz"]) ⟨[], []⟩
      (.error (.nameError "[Runtime] Undefined variable zz"))
      ⟨[("x", some (.vint 1))], []⟩ :=
  spec_C4.1 [.assign "x" (.number (.vint 1))] (.var "zz") [] (some (.vint 1))
    ⟨[], []⟩ ⟨[("x", some (.vint 1))], []⟩ ⟨[("x", some (.vint 1))], []⟩
    (.nameError "[Runtime] Undefined variable zz") (by simp)
    ⟨4, rfl, by simp⟩ ⟨1, rfl, by simp⟩

/-- Instantiation of C5: a digit starts a NUMBER token. -/
theorem spec_C5_inst :
    ∃ m, matchToken ['7'] = some (.NUMBER, m) :=
  spec_C5.2.2.2.2.2.2 '7' [] rfl

/-- Instantiation of C6 on the two-line source `x = 1` / `y`. -/
theorem spec_C6_inst :
    ([⟨.IDENT, .vstr "x", 1⟩, ⟨.ASSIGN, .vstr "=", 1⟩, ⟨.NUMBER, .vnum (.vint 1), 1⟩,
      ⟨.IDENT, .vstr "y", 2⟩, ⟨.EOF, .vnone, 2⟩] : List Token) ≠ [] ∧
    ([⟨.IDENT, .vstr "x", 1⟩, ⟨.ASSIGN, .vstr "=", 1⟩, ⟨.NUMBER, .vnum (.vint 1), 1⟩,
      ⟨.IDENT, .vstr "y", 2⟩, ⟨.EOF, .vnone, 2⟩] : List Token).getLast? =
      some ⟨.EOF, .vnone, 2⟩ ∧
    (∀ tok ∈ ([⟨.IDENT, .vstr "x", 1⟩, ⟨.ASSIGN, .vstr "=", 1⟩,
        ⟨.NUMBER, .vnum (.vint 1), 1⟩, ⟨.IDENT, .vstr "y", 2⟩,
        ⟨.EOF, .vnone, 2⟩] : List Token).dropLast, tok.type ≠ .EOF) ∧
    ([⟨.IDENT, .vstr "x", 1⟩, ⟨.ASSIGN, .vstr "=", 1⟩, ⟨.NUMBER, .vnum (.vint 1), 1⟩,
      ⟨.IDENT, .vstr "y", 2⟩, ⟨.EOF, .vnone, 2⟩] : List Token).countP
        (fun tok => tok.type == .EOF) = 1 ∧
    (∀ tok ∈ ([⟨.IDENT, .vstr "x", 1⟩, ⟨.ASSIGN, .vstr "=", 1⟩,
        ⟨.NUMBER, .vnum (.vint 1), 1⟩, ⟨.IDENT, .vstr "y", 2⟩,
        ⟨.EOF, .vnone, 2⟩] : List Token), 1 ≤ tok.line) ∧
    List.Chain' (fun a b => a.line ≤ b.line)
      ([⟨.IDENT, .vstr "x", 1⟩, ⟨.ASSIGN, .vstr "=", 1⟩, ⟨.NUMBER, .vnum (.vint 1), 1⟩,
        ⟨.IDENT, .vstr "y", 2⟩, ⟨.EOF, .vnone, 2⟩] : List Token) :=
  spec_C6 "x = 1\ny"
    [⟨.IDENT, .vstr "x", 1⟩, ⟨.ASSIGN, .vstr "=", 1⟩, ⟨.NUMBER, .vnum (.vint 1), 1⟩,
     ⟨.IDENT, .vstr "y", 2⟩, ⟨.EOF, .vnone, 2⟩] rfl

/-- Instantiation of C7: `6/3 = 2.0` displays as `2`, `1.5` as itself,
and printing appends the displayed value to the log. -/
theorem spec_C7_inst :
    toDisplay (some (.vfloat ⟨6, 3⟩)) = some (.vint 2) ∧
    toDisplay (some (.vfloat ⟨15, 10⟩)) = some (.vfloat ⟨15, 10⟩) ∧
    EvalsTo (.printNode (.number (.vint 1))) ⟨[], []⟩ (.ok (some (.vint 1)))
      ⟨[], [some (.vint 1)]⟩ := by
  refine ⟨(spec_C7.2.1 ⟨6, 3⟩).1 (by decide), (spec_C7.2.1 ⟨15, 10⟩).2 (by decide),
    spec_C7.2.2 (.number (.vint 1)) ⟨[], []⟩ (some (.vint 1)) ⟨[], []⟩ ⟨1, rfl, by simp⟩⟩

/-- Instantiation of C8: `5 % 0` raises the native zero-division error. -/
theorem spec_C8_inst :
    (∃ msg, Value.mod (.vint 5) (.vint 0) = .error (.zeroDivisionError msg)) ∧
    (∃ msg, EvalsTo (.binop (.number (.vint 5)) "%" (.number (.vint 0))) ⟨[], []⟩
      (.error (.zeroDivisionError msg)) ⟨[], []⟩) :=
  ⟨spec_C8.1 (.vint 5) (.vint 0) rfl,
   spec_C8.2.1 (.number (.vint 5)) (.number (.vint 0)) ⟨[], []⟩ ⟨[], []⟩ ⟨[], []⟩
     (.vint 5) (.vint 0) ⟨1, rfl, by simp⟩ ⟨1, rfl, by simp⟩ rfl⟩

/-- Instantiation of C10: two consecutive MINUS tokens at `unary`
position are a parse error. -/
theorem spec_C10_inst :
    ∃ msg, unaryF 2 [⟨.MINUS, .vstr "-", 1⟩, ⟨.MINUS, .vstr "-", 1⟩] =
      .error (.synError msg) :=
  spec_C10.1 0 ⟨.MINUS, .vstr "-", 1⟩ ⟨.MINUS, .vstr "-", 1⟩ [] rfl rfl

end MiniCompiler
